import Mathlib

/-!
Verification of the DirSync client/server (client.py, server.py).

The development shallowly embeds the parts of the code the claims are
about:

* the client upload procedure `DirSynClient.copy_file` (v1.1 block-diff
  path): reading the local file in server-sized blocks, comparing SHA-1
  digests against the server's `filesums` response and posting
  `copyblock` requests (C1, C5);
* the server handlers `file_sums`, `copy_block`, `create_dir`,
  `delete_object`, `rename_object`, `check_file` (C2, C3, C6, C7, C9,
  C10);
* the client update buffer `updatedict` with the watcher callbacks
  `on_modified` / `on_deleted` / `on_moved` and the poller loop in
  `watch` (C4, C5);
* the server path resolution `os.path.join(directory, unquote(name))`
  followed by filesystem normalisation (C8).

Bytes are modelled as `Nat`, byte strings as `List Nat`.  SHA-1 is a
library call in the source; it is modelled as an explicit function
parameter `hash : List Nat → String` (the hex digest), so every theorem
holds for the real SHA-1 in particular.  Wall-clock times are `Nat`
(nanoseconds or seconds do not matter to the claims), `st_mtime`
(a float in the source) is modelled as `ℚ`.
-/

/-! ## Client upload data (client.py, copy_file) -/

/-- The fields of `os.stat` that `copy_file` reads (`st_size`,
`st_atime_ns`, `st_mtime_ns`). -/
structure LocalStat where
  st_size : Nat
  st_atime_ns : Nat
  st_mtime_ns : Nat
deriving DecidableEq, Repr

/-- The JSON body of a `filesums` response: the server-chosen block size
and one hex SHA-1 digest per block of the destination file. -/
structure FileSums where
  Blocksize : Nat
  Checksums : List String
deriving DecidableEq, Repr

/-- One `copyblock` POST issued by `copy_file`: the `offset` query
parameter, the request body (`none` for the final bodyless commit), and
the `filesize`/`atime_ns`/`mtime_ns` query parameters, which the source
always appends together (`fileinfo = some st` means all three are
present, taken from `os.stat(localfile)`). -/
structure BlockRequest where
  offset : Nat
  body : Option (List Nat)
  fileinfo : Option LocalStat
deriving DecidableEq, Repr

/-- Fuel-driven worker for `chunksOf` (structural recursion so that
concrete instances reduce in the kernel).  With `fuel ≥ data.length` and
`0 < B` the fuel never runs out. -/
def chunksGo (B : Nat) : Nat → List Nat → List (List Nat)
  | _, [] => []
  | 0, _ :: _ => []
  | fuel + 1, d :: ds => (d :: ds).take B :: chunksGo B fuel ((d :: ds).drop B)

/-- The sequence of blocks `f.read(blocksize)` yields in the `copy_file`
read loop: `B`-sized chunks of the file, the last one possibly shorter,
none for an empty file.  `B = 0` gives no chunks (`f.read(0)` returns an
empty byte string, which the loop treats as EOF). -/
def chunksOf (B : Nat) (data : List Nat) : List (List Nat) :=
  if B = 0 then [] else chunksGo B data.length data

/-- `⌈n / B⌉` on naturals. -/
def ceilDivNat (n B : Nat) : Nat := (n + B - 1) / B

/-- The block loop of `copy_file` (client.py lines 165-192): for each
chunk `d` at block index `i`, if `i ≥ len(Checksums)` or the digest of
`d` differs from `Checksums[i]`, POST the block at `offset = i·B`,
attaching the stat information when the chunk is short (`last`); track
the running block index and the `lastsent` flag.  Returns the posted
requests, the final block index and the final `lastsent`. -/
def uploadBlocks (hash : List Nat → String) (B : Nat) (C : List String) (st : LocalStat) :
    List (List Nat) → Nat → Bool → List BlockRequest × Nat × Bool
  | [], i, lastsent => ([], i, lastsent)
  | d :: ds, i, lastsent =>
    if C.length ≤ i ∨ hash d ≠ C.getD i "" then
      (⟨i * B, some d, if d.length < B then some st else none⟩ ::
          (uploadBlocks hash B C st ds (i + 1) (lastsent || decide (d.length < B))).1,
        (uploadBlocks hash B C st ds (i + 1) (lastsent || decide (d.length < B))).2)
    else
      uploadBlocks hash B C st ds (i + 1) lastsent

/-- The full v1.1 upload path of `copy_file` (client.py lines 156-200):
run the block loop over the chunks of the local file and, if the last
block was not sent with the stat information (`lastsent` false, e.g. the
file is a multiple of the block size), append the bodyless `copyblock`
carrying `filesize`, `atime_ns` and `mtime_ns` at the final offset. -/
def copy_file_requests (hash : List Nat → String) (info : FileSums)
    (data : List Nat) (st : LocalStat) : List BlockRequest :=
  if (uploadBlocks hash info.Blocksize info.Checksums st
      (chunksOf info.Blocksize data) 0 false).2.2 then
    (uploadBlocks hash info.Blocksize info.Checksums st
      (chunksOf info.Blocksize data) 0 false).1
  else
    (uploadBlocks hash info.Blocksize info.Checksums st
        (chunksOf info.Blocksize data) 0 false).1 ++
      [⟨(uploadBlocks hash info.Blocksize info.Checksums st
          (chunksOf info.Blocksize data) 0 false).2.1 * info.Blocksize, none, some st⟩]

/-! ## Server checksum producer (server.py, file_sums) -/

/-- The `file_sums` handler (server.py lines 86-116): if the file exists
it is read in `Blocksize`-sized chunks and each chunk is hashed;
otherwise the checksum list is empty.  The response always carries the
configured block size and is always status 200 (`flask.jsonify`). -/
def file_sums (B : Nat) (hash : List Nat → String) (file : Option (List Nat)) :
    FileSums × Nat :=
  (⟨B, match file with
      | some data => (chunksOf B data).map hash
      | none => []⟩, 200)

/-! ## C1 and C3 statements -/

/-- The property claimed by C1, at block size `B`, remote checksum list
`C`, local file `data` and local stat `st`:
1. the body-carrying `copyblock` posts are exactly one per block index
   `i` with `i ≥ len C` or a differing digest, at offset `i·B`, with the
   `i`-th chunk as body, carrying the stat parameters iff the chunk is
   short;
2. a request body is short exactly when the request carries the stat
   parameters;
3. if the file size is an exact multiple of `B` the run ends with
   exactly one bodyless request at offset `(size/B)·B` carrying the stat
   parameters. -/
def C1Prop (hash : List Nat → String) (B : Nat) (C : List String)
    (data : List Nat) (st : LocalStat) : Prop :=
  ((copy_file_requests hash ⟨B, C⟩ data st).filter (fun r => r.body.isSome) =
      ((chunksOf B data).enum.filter
          (fun q => decide (C.length ≤ q.1 ∨ hash q.2 ≠ C.getD q.1 ""))).map
        (fun q => ⟨q.1 * B, some q.2, if q.2.length < B then some st else none⟩))
  ∧ (∀ r ∈ copy_file_requests hash ⟨B, C⟩ data st, ∀ d, r.body = some d →
      (r.fileinfo = some st ↔ d.length < B))
  ∧ (B ∣ data.length →
      (copy_file_requests hash ⟨B, C⟩ data st).filter (fun r => r.body.isNone) =
          [⟨data.length / B * B, none, some st⟩]
      ∧ (copy_file_requests hash ⟨B, C⟩ data st).getLast? =
          some ⟨data.length / B * B, none, some st⟩)

/-- The property claimed by C3: `file_sums` answers 200, echoes the
configured block size, returns `⌈size/B⌉` checksums, and an absent or
empty file yields an empty list. -/
def C3Prop (B : Nat) (hash : List Nat → String) (file : Option (List Nat)) : Prop :=
  (file_sums B hash file).2 = 200
  ∧ (file_sums B hash file).1.Blocksize = B
  ∧ (file_sums B hash file).1.Checksums.length = ceilDivNat ((file.getD []).length) B
  ∧ ((file = none ∨ file = some []) → (file_sums B hash file).1.Checksums = [])

/-! ## Server block-write engine (server.py, copy_block) -/

/-- A destination file: its byte content and the access/modification
times `os.utime` manages (nanoseconds). -/
structure FileState where
  content : List Nat
  atime_ns : Nat
  mtime_ns : Nat
deriving DecidableEq, Repr

/-- `f.seek(offset); f.write(data)`: bytes `[offset, offset+len(data))`
are replaced by `data`; seeking past EOF fills the gap with zero bytes
(sparse-file semantics); the rest of the file is kept. -/
def writeAt (content : List Nat) (offset : Nat) (data : List Nat) : List Nat :=
  (content ++ List.replicate (offset - content.length) 0).take offset ++ data ++
    content.drop (offset + data.length)

/-- `f.truncate(n)`: cut the file to `n` bytes, zero-extending if it was
shorter. -/
def truncateTo (content : List Nat) (n : Nat) : List Nat :=
  content.take n ++ List.replicate (n - content.length) 0

/-- The `copy_block` handler (server.py lines 142-172) on the single
file it addresses.  The file is opened `rb+` when present and `wb`
(empty) when absent, the body is written at `offset`, the file is
truncated to `filesize` when that parameter is present, and `os.utime`
is applied iff both `atime_ns` and `mtime_ns` are present (otherwise the
times are whatever the write left, modelled by `wtime`).  An I/O error
(`err`, modelled as failing at open before any write) is caught and
mapped to 403; success is 200. -/
def copy_block (err : Bool) (file : Option FileState) (offset : Nat) (data : List Nat)
    (filesize atime mtime : Option Nat) (wtime : Nat × Nat) : Option FileState × Nat :=
  if err then (file, 403)
  else
    let c2 := match filesize with
      | some n => truncateTo (writeAt ((file.map FileState.content).getD []) offset data) n
      | none => writeAt ((file.map FileState.content).getD []) offset data
    match atime, mtime with
    | some a, some m => (some ⟨c2, a, m⟩, 200)
    | some _, none => (some ⟨c2, wtime.1, wtime.2⟩, 200)
    | none, _ => (some ⟨c2, wtime.1, wtime.2⟩, 200)

/-- The destination tree as seen by `copy_block`: one optional file
state per request path. -/
def FileMap : Type := String → Option FileState

/-- `copy_block` dispatched on the destination tree: only the addressed
path is touched. -/
def copy_block_fs (err : Bool) (fs : FileMap) (p : String) (offset : Nat)
    (data : List Nat) (filesize atime mtime : Option Nat) (wtime : Nat × Nat) :
    FileMap × Nat :=
  ((fun q => if q = p then (copy_block err (fs p) offset data filesize atime mtime wtime).1
      else fs q),
   (copy_block err (fs p) offset data filesize atime mtime wtime).2)

/-- The property claimed by C2: `copy_block` answers 200 on success and
403 on an I/O error; it creates the file when absent; the written bytes
read back as the request body (where not cut off by truncation); a
present `filesize` leaves the file exactly that long; and the times are
applied iff both `atime_ns` and `mtime_ns` are present. -/
def C2Prop (file : Option FileState) (offset : Nat) (data : List Nat)
    (filesize atime mtime : Option Nat) (wtime : Nat × Nat) : Prop :=
  ((copy_block false file offset data filesize atime mtime wtime).2 = 200)
  ∧ (∃ f', (copy_block false file offset data filesize atime mtime wtime).1 = some f'
      ∧ (filesize = none → ∀ j, j < data.length →
          f'.content[offset + j]? = data[j]?)
      ∧ (∀ n, filesize = some n → f'.content.length = n ∧
          ∀ j, j < data.length → offset + j < n →
            f'.content[offset + j]? = data[j]?)
      ∧ (filesize = none → f'.content.length =
          max (offset + data.length) (((file.map FileState.content).getD []).length))
      ∧ (∀ a m, atime = some a → mtime = some m →
          f'.atime_ns = a ∧ f'.mtime_ns = m)
      ∧ ((atime = none ∨ mtime = none) →
          f'.atime_ns = wtime.1 ∧ f'.mtime_ns = wtime.2))
  ∧ (copy_block true file offset data filesize atime mtime wtime = (file, 403))

/-- The property claimed by C10 (frame): a successful `copy_block` at
path `p` leaves every other path of the destination tree untouched, and
on the addressed file every byte outside `[offset, offset+len(data))`
that exists both before and after (i.e. was not cut off by truncation)
is unchanged. -/
def C10Prop (fs : FileMap) (p : String) (offset : Nat) (data : List Nat)
    (filesize atime mtime : Option Nat) (wtime : Nat × Nat) : Prop :=
  (∀ q, q ≠ p →
    (copy_block_fs false fs p offset data filesize atime mtime wtime).1 q = fs q)
  ∧ (∀ f, fs p = some f →
      ∃ f', (copy_block_fs false fs p offset data filesize atime mtime wtime).1 p = some f'
        ∧ ∀ j, (j < offset ∨ offset + data.length ≤ j) →
            j < f.content.length → j < f'.content.length →
            f'.content[j]? = f.content[j]?)

/-! ## Client update buffer (client.py, updatedict) -/

/-- One value of `updatedict`: `{'LastUpdated': <time>,
'PendingUpdate': <bool>}`.  The spec's states: Fresh is
`PendingUpdate = false`, Dirty is `PendingUpdate = true`, Absent is no
entry. -/
structure Entry where
  LastUpdated : Nat
  PendingUpdate : Bool
deriving DecidableEq, Repr

/-- The update buffer: an optional entry per absolute file path. -/
def UpdateDict : Type := String → Option Entry

/-- `on_modified` (client.py lines 66-78) for a file event: if the path
has an entry, set its `PendingUpdate` and do not upload; otherwise
upload now (`copy_file`) and insert a fresh entry.  The boolean reports
whether an upload was issued. -/
def on_modified (d : UpdateDict) (p : String) (now : Nat) : UpdateDict × Bool :=
  match d p with
  | some e => ((fun q => if q = p then some ⟨e.LastUpdated, true⟩ else d q), false)
  | none => ((fun q => if q = p then some ⟨now, false⟩ else d q), true)

/-- `on_deleted` (client.py lines 54-64): drop any entry for the path
(then issue `delete_object`, which is not an upload). -/
def on_deleted (d : UpdateDict) (p : String) : UpdateDict × Bool :=
  ((fun q => if q = p then none else d q), false)

/-- `on_moved` (client.py lines 80-97): when the destination stays under
the watched root (`inRoot`, the `commonprefix` test), rename the entry
to the new key; the dict update assigns `dest` first and then deletes
`src`.  No upload is issued. -/
def on_moved (d : UpdateDict) (inRoot : Bool) (src dest : String) : UpdateDict × Bool :=
  if inRoot then
    if (d src).isSome then
      ((fun q => if q = src then none else if q = dest then d src else d q), false)
    else (d, false)
  else (d, false)

/-- One entry's treatment by a poller scan (client.py lines 283-293):
with `now - LastUpdated ≥ updatemax`, a pending entry is uploaded and
refreshed (`now2` is the clock after the upload returns), a non-pending
entry is dropped; younger entries are untouched.  The boolean reports
whether an upload was issued. -/
def tick_entry (e : Entry) (now now2 updatemax : Nat) : Option Entry × Bool :=
  if updatemax ≤ now - e.LastUpdated then
    if e.PendingUpdate then (some ⟨now2, false⟩, true) else (none, false)
  else (some e, false)

/-- The property claimed by C4: the three-state machine of an
update-buffer entry.  Absent + modify uploads and inserts Fresh with
`LastUpdated = now`; Fresh/Dirty + modify turns Dirty without an upload;
a due poller tick uploads a Dirty entry into Fresh and removes a Fresh
entry; delete removes the entry without an upload; an in-root rename
moves the entry unchanged to the new key. -/
def C4Prop (d : UpdateDict) (p src dest : String) (e : Entry) (now now2 U : Nat) : Prop :=
  (d p = none →
    (on_modified d p now).2 = true ∧ (on_modified d p now).1 p = some ⟨now, false⟩)
  ∧ (∀ e', d p = some e' →
      (on_modified d p now).2 = false ∧
      (on_modified d p now).1 p = some ⟨e'.LastUpdated, true⟩)
  ∧ (U ≤ now - e.LastUpdated → e.PendingUpdate = true →
      tick_entry e now now2 U = (some ⟨now2, false⟩, true))
  ∧ (U ≤ now - e.LastUpdated → e.PendingUpdate = false →
      tick_entry e now now2 U = (none, false))
  ∧ ((on_deleted d p).1 p = none ∧ (on_deleted d p).2 = false)
  ∧ (src ≠ dest → d src = some e →
      (on_moved d true src dest).1 dest = some e
      ∧ (on_moved d true src dest).1 src = none
      ∧ (on_moved d true src dest).2 = false)

/-! ## Identity check (client.py check_file, server.py check_file) -/

/-- The two stat fields the v1.0 identity check compares: `st_size` and
the float `st_mtime` (modelled as a rational). -/
structure StatRecord where
  st_size : Nat
  st_mtime : ℚ
deriving DecidableEq, Repr

/-- An HTTP response as the client sees it: `success` is `response.ok`
(2xx/3xx) with a decoded body, `failure` is any other status code. -/
inductive HttpResp (α : Type) where
  | success : α → HttpResp α
  | failure : Nat → HttpResp α
deriving DecidableEq, Repr

/-- The server `check_file` handler (server.py lines 75-84): 410 when no
regular file is at the path, otherwise 200 with the stat record. -/
def check_file_server (obj : Option StatRecord) : HttpResp StatRecord :=
  match obj with
  | some st => .success st
  | none => .failure 410

/-- The client `check_file` (client.py lines 125-146): on `response.ok`
compare remote and local `st_size` and `st_mtime`; 410 yields `false`
(file not on server); any other status raises
(`response.raise_for_status()`), modelled as `Except.error`. -/
def check_file_client (resp : HttpResp StatRecord) (localstat : StatRecord) :
    Except Nat Bool :=
  match resp with
  | .success remotestat =>
      .ok (decide (remotestat.st_size = localstat.st_size) &&
           decide (remotestat.st_mtime = localstat.st_mtime))
  | .failure code => if code = 410 then .ok false else .error code

/-- The property claimed by C6: the combined client/server check returns
`true` iff the server has a regular file whose `st_size` and `st_mtime`
both equal the local ones; an absent file (410) yields `false`; any
other failure status raises. -/
def C6Prop (remote : Option StatRecord) (localstat : StatRecord) : Prop :=
  (check_file_client (check_file_server remote) localstat = .ok true ↔
    ∃ r, remote = some r ∧ r.st_size = localstat.st_size ∧
      r.st_mtime = localstat.st_mtime)
  ∧ (remote = none → check_file_client (check_file_server remote) localstat = .ok false)
  ∧ (∀ c, c ≠ 410 → check_file_client (.failure c) localstat = .error c)
  ∧ (check_file_client (.failure 410) localstat = .ok false)

/-! ## Destination tree and path-addressed handlers
(server.py create_dir, delete_object, rename_object, path joining) -/

/-- An object in the destination tree: a regular file with its bytes, or
a directory. -/
inductive FSObj where
  | file : List Nat → FSObj
  | dir : FSObj
deriving DecidableEq, Repr

/-- The destination tree: an association list from absolute, normalised
segment paths to objects. -/
abbrev FS := List (List String × FSObj)

/-- Look a path up in the tree. -/
def lookupFS : FS → List String → Option FSObj
  | [], _ => none
  | (q, o) :: rest, p => if q = p then some o else lookupFS rest p

/-- `os.path.isfile`. -/
def isFileAt (fs : FS) (p : List String) : Bool :=
  match lookupFS fs p with
  | some (.file _) => true
  | _ => false

/-- `os.rmdir` errors (OSError ENOTEMPTY) iff the directory has an entry
strictly below it. -/
def dirNonEmpty (fs : FS) (p : List String) : Bool :=
  fs.any (fun e => !decide (e.1 = p) && decide (p <+: e.1))

/-- `os.makedirs(dirname, exist_ok=True)`: create the path and every
missing ancestor as directories. -/
def makedirs (fs : FS) (p : List String) : FS :=
  (p.inits.filter (fun q => !q.isEmpty)).foldl
    (fun acc q => if (lookupFS acc q).isSome then acc else (q, FSObj.dir) :: acc) fs

/-- The `create_dir` handler (server.py lines 60-73): `os.makedirs` with
`exist_ok=True`, so a pre-existing directory is success; a regular file
in the way makes `makedirs` raise, which the handler maps to 403. -/
def create_dir (fs : FS) (p : List String) : FS × Nat :=
  if lookupFS fs p = some FSObj.dir then (fs, 200)
  else if (p.inits.filter (fun q => !q.isEmpty)).any (isFileAt fs) then (fs, 403)
  else (makedirs fs p, 200)

/-- The `delete_object` handler (server.py lines 174-193): `os.rmdir`
for a directory (the ENOTEMPTY error is caught as `IOError` and mapped
to 403), `os.remove` for a regular file, and "Nothing to delete" with
200 for an absent name. -/
def delete_object (fs : FS) (p : List String) : FS × Nat :=
  match lookupFS fs p with
  | some FSObj.dir =>
      if dirNonEmpty fs p then (fs, 403)
      else (fs.filter (fun e => !decide (e.1 = p)), 200)
  | some (FSObj.file _) => (fs.filter (fun e => !decide (e.1 = p)), 200)
  | none => (fs, 200)

/-- `os.rename(old, new)`: `none` models `FileNotFoundError` (absent
source); otherwise the object and everything below it move under the new
name, replacing what was there. -/
def os_rename (fs : FS) (oldp newp : List String) : Option FS :=
  match lookupFS fs oldp with
  | none => none
  | some _ =>
      some ((fs.filter (fun e => !decide (oldp <+: e.1) && !decide (newp <+: e.1))) ++
        ((fs.filter (fun e => decide (oldp <+: e.1))).map
          (fun e => (newp ++ e.1.drop oldp.length, e.2))))

/-- The `rename_object` handler (server.py lines 195-217): 400 when the
`newname` query parameter is missing; `FileNotFoundError` from
`os.rename` is swallowed and reported as 200 ("Not renamed"). -/
def rename_object (fs : FS) (oldname : List String) (newname : Option (List String)) :
    FS × Nat :=
  match newname with
  | none => (fs, 400)
  | some newp =>
      match os_rename fs oldname newp with
      | none => (fs, 200)
      | some fs2 => (fs2, 200)

/-- One step of `os.path`-style normalisation of an absolute path: empty
and `.` segments vanish, `..` removes the previous segment (and is
dropped at the root, as `normpath` does for absolute paths). -/
def normStep (acc : List String) (seg : String) : List String :=
  if seg = "" ∨ seg = "." then acc
  else if seg = ".." then acc.dropLast
  else acc ++ [seg]

/-- Normalise an absolute path given as segments. -/
def normSegs (segs : List String) : List String :=
  segs.foldl normStep []

/-- The absolute path a handler operates on for request path `P`:
`os.path.join(self.directory, urllib.parse.unquote(P))`, normalised by
the operating system when used.  Every handler resolves its target this
way (server.py lines 55, 66, 81, 93, 126, 150, 180, 205-206); none of
them validates the result against the root. -/
def effective_path (root P : List String) : List String :=
  normSegs (root ++ P)

/-- `create_dir` as dispatched on a request: the handler acts at the
effective path. -/
def create_dir_handler (fs : FS) (root P : List String) : FS × Nat :=
  create_dir fs (effective_path root P)

/-- The property claimed by C7: `createdir` on an existing directory,
`deleteobject` on an absent path, and `renameobject` with an absent
source all answer 200 and leave the tree unchanged. -/
def C7Prop (fs : FS) (pdir pabs oldp newp : List String) : Prop :=
  (lookupFS fs pdir = some FSObj.dir → create_dir fs pdir = (fs, 200))
  ∧ (lookupFS fs pabs = none → delete_object fs pabs = (fs, 200))
  ∧ (lookupFS fs oldp = none → rename_object fs oldp (some newp) = (fs, 200))

/-- A destination tree holding a non-empty directory, for C9. -/
def fs9 : FS := [(["d"], FSObj.dir), (["d", "f"], FSObj.file [])]

/-- The destination root used in the C8 counterexample. -/
def c8root : List String := ["home", "srv", "Storage"]

/-- A destination tree holding just the root directory, for C8. -/
def c8fs : FS := [(c8root, FSObj.dir)]

/-! ## Single-file event traces (client.py on_modified + the watch
poller), for the rate-limit claim -/

/-- An event affecting one watched file: a filesystem modify event at
time `t`, or the poller scan visiting the file's entry at time `t`. -/
inductive WatchEvent where
  | modify : Nat → WatchEvent
  | tick : Nat → WatchEvent
deriving DecidableEq, Repr

/-- The time an event occurs. -/
def evTime : WatchEvent → Nat
  | .modify t => t
  | .tick t => t

/-- One file's update-buffer entry under one event: the single-file
projection of `on_modified` and of the poller scan (`tick_entry`, with
the post-upload clock taken equal to the event time).  The boolean
reports whether the event issued an upload (`copy_file`). -/
def stepEntry (U : Nat) (s : Option Entry) : WatchEvent → Option Entry × Bool
  | .modify t =>
      match s with
      | some e => (some ⟨e.LastUpdated, true⟩, false)
      | none => (some ⟨t, false⟩, true)
  | .tick t =>
      match s with
      | some e => tick_entry e t t U
      | none => (none, false)

/-- Run a trace of events over one file's entry and collect the times of
the uploads it issues. -/
def runUploads (U : Nat) (s : Option Entry) : List WatchEvent → List Nat
  | [] => []
  | ev :: evs =>
      (if (stepEntry U s ev).2 then [evTime ev] else []) ++
        runUploads U (stepEntry U s ev).1 evs

/-- Event times are nondecreasing and bounded below by `t0`. -/
def TimesLB (t0 : Nat) : List WatchEvent → Prop
  | [] => True
  | ev :: evs => t0 ≤ evTime ev ∧ TimesLB (evTime ev) evs

/-- Upload times keep a gap of at least `U` from the previous upload
time (`prev`) and from each other. -/
def Separated (U : Nat) : Option Nat → List Nat → Prop
  | _, [] => True
  | prev, x :: xs => (∀ u, prev = some u → u + U ≤ x) ∧ Separated U (some x) xs

/-- Invariant tying the entry state to the last upload time `prev` and
the current clock `t0`: `LastUpdated` lies between the last upload and
the clock, and an absent entry means the last upload is at least `U`
old. -/
def EntryInv (U : Nat) : Option Entry → Option Nat → Nat → Prop
  | none, none, _ => True
  | none, some u, t0 => u + U ≤ t0
  | some e, none, t0 => e.LastUpdated ≤ t0
  | some e, some u, t0 => u ≤ e.LastUpdated ∧ e.LastUpdated ≤ t0

/-- The number of upload sessions a trace issues inside the time window
`[a, a+T]`, starting with no entry for the file. -/
def uploadsInWindow (U : Nat) (evs : List WatchEvent) (a T : Nat) : Nat :=
  ((runUploads U none evs).filter (fun t => decide (a ≤ t) && decide (t ≤ a + T))).length

/-- What C5 literally counts: each upload session runs `copy_file`,
which issues one `copyblock` POST per differing block plus possibly the
terminal bodyless commit; with a fixed local file and remote checksum
list every session issues `(copy_file_requests …).length` requests. -/
def copyblockRequestsInWindow (U : Nat) (hash : List Nat → String) (info : FileSums)
    (data : List Nat) (st : LocalStat) (evs : List WatchEvent) (a T : Nat) : Nat :=
  uploadsInWindow U evs a T * (copy_file_requests hash info data st).length

/-- The amended C5: over any modify/tick event trace for one file with
nondecreasing times, the number of upload sessions issued inside a
window of length `T` is at most `⌈T/updatemax⌉ + 1`. -/
def C5Prop (U T a : Nat) (evs : List WatchEvent) : Prop :=
  uploadsInWindow U evs a T ≤ ceilDivNat T U + 1

/-! ## Lemmas about chunking -/

theorem ceil_div_step (B m : Nat) (hB : 0 < B) (hm : 0 < m) :
    (m - B + B - 1) / B + 1 = (m + B - 1) / B := by
  have hR : m + B - 1 = (m - 1) + B := by omega
  rw [hR, Nat.add_div_right _ hB]
  by_cases hc : m ≤ B
  · have h1 : m - B + B - 1 = B - 1 := by omega
    rw [h1, Nat.div_eq_of_lt (by omega : B - 1 < B),
      Nat.div_eq_of_lt (by omega : m - 1 < B)]
  · have h1 : m - B + B - 1 = m - 1 := by omega
    rw [h1]

theorem chunksGo_length (B : Nat) (hB : 0 < B) :
    ∀ (fuel : Nat) (data : List Nat), data.length ≤ fuel →
      (chunksGo B fuel data).length = ceilDivNat data.length B := by
  intro fuel
  induction fuel with
  | zero =>
    intro data h
    have hnil : data = [] := List.length_eq_zero.mp (Nat.le_zero.mp h)
    subst hnil
    simp [chunksGo, ceilDivNat, Nat.div_eq_of_lt (by omega : B - 1 < B)]
  | succ n ih =>
    intro data h
    match data with
    | [] => simp [chunksGo, ceilDivNat, Nat.div_eq_of_lt (by omega : B - 1 < B)]
    | d :: ds =>
      have hlen : ((d :: ds).drop B).length = ds.length + 1 - B := by simp
      have hrec := ih ((d :: ds).drop B) (by simp at h ⊢; omega)
      simp only [chunksGo, List.length_cons, hrec, hlen]
      unfold ceilDivNat
      exact ceil_div_step B (ds.length + 1) hB (by omega)

theorem chunksOf_length (B : Nat) (hB : 0 < B) (data : List Nat) :
    (chunksOf B data).length = ceilDivNat data.length B := by
  unfold chunksOf
  rw [if_neg (by omega)]
  exact chunksGo_length B hB data.length data le_rfl

theorem chunksGo_full (B : Nat) (hB : 0 < B) :
    ∀ (fuel : Nat) (data : List Nat), data.length ≤ fuel → B ∣ data.length →
      ∀ d ∈ chunksGo B fuel data, d.length = B := by
  intro fuel
  induction fuel with
  | zero =>
    intro data h _ d hd
    have hnil : data = [] := List.length_eq_zero.mp (Nat.le_zero.mp h)
    subst hnil
    simp [chunksGo] at hd
  | succ n ih =>
    intro data h hdvd d hd
    match data with
    | [] => simp [chunksGo] at hd
    | x :: ds =>
      have hge : B ≤ (x :: ds).length :=
        Nat.le_of_dvd (by simp) hdvd
      simp only [chunksGo] at hd
      rcases List.mem_cons.mp hd with h1 | h1
      · subst h1
        simp only [List.length_take, List.length_cons]
        simp only [List.length_cons] at hge
        omega
      · refine ih ((x :: ds).drop B) (by simp at h ⊢; omega) ?_ d h1
        have hdl : ((x :: ds).drop B).length = (x :: ds).length - B := by simp
        rw [hdl]
        exact Nat.dvd_sub' hdvd dvd_rfl

theorem chunksOf_full (B : Nat) (hB : 0 < B) (data : List Nat)
    (hdvd : B ∣ data.length) : ∀ d ∈ chunksOf B data, d.length = B := by
  unfold chunksOf
  rw [if_neg (by omega)]
  exact chunksGo_full B hB data.length data le_rfl hdvd

theorem chunksOf_length_of_dvd (B : Nat) (hB : 0 < B) (data : List Nat)
    (hdvd : B ∣ data.length) : (chunksOf B data).length = data.length / B := by
  rw [chunksOf_length B hB data]
  obtain ⟨k, hk⟩ := hdvd
  rw [hk]
  unfold ceilDivNat
  have h1 : B * k + B - 1 = B * k + (B - 1) := by omega
  rw [h1, Nat.mul_add_div hB, Nat.div_eq_of_lt (by omega : B - 1 < B),
    Nat.mul_div_cancel_left k hB]
  omega

/-! ## Lemmas about the block loop -/

theorem uploadBlocks_fst (hash : List Nat → String) (B : Nat) (C : List String)
    (st : LocalStat) :
    ∀ (ds : List (List Nat)) (i : Nat) (ls : Bool),
      (uploadBlocks hash B C st ds i ls).1 =
        ((List.enumFrom i ds).filter
            (fun q => decide (C.length ≤ q.1 ∨ hash q.2 ≠ C.getD q.1 ""))).map
          (fun q => ⟨q.1 * B, some q.2, if q.2.length < B then some st else none⟩) := by
  intro ds
  induction ds with
  | nil => intro i ls; rfl
  | cons d ds ih =>
    intro i ls
    by_cases h : C.length ≤ i ∨ hash d ≠ C.getD i ""
    · simp only [uploadBlocks, if_pos h, List.enumFrom, List.filter_cons,
        decide_eq_true h, if_true, List.map_cons, ih]
    · simp only [uploadBlocks, if_neg h, List.enumFrom, List.filter_cons,
        decide_eq_false h, Bool.false_eq_true, if_false, ih]

theorem uploadBlocks_idx (hash : List Nat → String) (B : Nat) (C : List String)
    (st : LocalStat) :
    ∀ (ds : List (List Nat)) (i : Nat) (ls : Bool),
      (uploadBlocks hash B C st ds i ls).2.1 = i + ds.length := by
  intro ds
  induction ds with
  | nil => intro i ls; rfl
  | cons d ds ih =>
    intro i ls
    by_cases h : C.length ≤ i ∨ hash d ≠ C.getD i ""
    · simp only [uploadBlocks, if_pos h, ih, List.length_cons]
      omega
    · simp only [uploadBlocks, if_neg h, ih, List.length_cons]
      omega

theorem uploadBlocks_lastsent (hash : List Nat → String) (B : Nat) (C : List String)
    (st : LocalStat) :
    ∀ (ds : List (List Nat)) (i : Nat) (ls : Bool),
      (∀ d ∈ ds, ¬ d.length < B) →
      (uploadBlocks hash B C st ds i ls).2.2 = ls := by
  intro ds
  induction ds with
  | nil => intro i ls _; rfl
  | cons d ds ih =>
    intro i ls hfull
    have hd : ¬ d.length < B := hfull d (by simp)
    by_cases h : C.length ≤ i ∨ hash d ≠ C.getD i ""
    · simp only [uploadBlocks, if_pos h, decide_eq_false hd, Bool.or_false]
      exact ih (i + 1) ls (fun x hx => hfull x (by simp [hx]))
    · simp only [uploadBlocks, if_neg h]
      exact ih (i + 1) ls (fun x hx => hfull x (by simp [hx]))

/-! ## C1 theorem -/

/-- C1: on the v1.1 upload path with server block size `B` and checksum
list `C`, the client posts a body-carrying `copyblock` at offset `i·B`
exactly for the block indices `i` with `i ≥ len C` or a differing SHA-1
digest; a request carries the `filesize`/`atime_ns`/`mtime_ns`
parameters iff its body is the final short chunk; and when the file size
is an exact multiple of `B` (including the empty file) the run ends with
exactly one bodyless `copyblock` at offset `(size/B)·B` carrying those
parameters. -/
theorem copy_file_requests_correct (hash : List Nat → String) (B : Nat)
    (C : List String) (data : List Nat) (st : LocalStat) (hB : 0 < B) :
    C1Prop hash B C data st := by
  unfold C1Prop
  have hfst := uploadBlocks_fst hash B C st (chunksOf B data) 0 false
  have hbody : ∀ r ∈ (uploadBlocks hash B C st (chunksOf B data) 0 false).1,
      r.body.isSome ∧ ∀ d, r.body = some d →
        (r.fileinfo = some st ↔ d.length < B) := by
    intro r hr
    rw [hfst] at hr
    obtain ⟨q, hqmem, hq⟩ := List.mem_map.mp hr
    subst hq
    refine ⟨rfl, ?_⟩
    intro d hd
    simp only at hd
    injection hd with hd
    subst hd
    by_cases hlt : q.2.length < B
    · simp [hlt]
    · simp only [if_neg hlt]
      constructor
      · intro hcon; exact absurd hcon (by simp)
      · intro hcon; exact absurd hcon hlt
  refine ⟨?_, ?_, ?_⟩
  · -- part 1: body-carrying requests are exactly the differing blocks
    unfold copy_file_requests
    simp only [List.enum]
    by_cases hls : (uploadBlocks hash B C st (chunksOf B data) 0 false).2.2
    · rw [if_pos hls]
      rw [List.filter_eq_self.mpr (fun r hr => (hbody r hr).1)]
      exact hfst
    · rw [if_neg hls, List.filter_append,
        List.filter_eq_self.mpr (fun r hr => (hbody r hr).1)]
      have h1 : List.filter (fun r => r.body.isSome)
          [(⟨(uploadBlocks hash B C st (chunksOf B data) 0 false).2.1 * B, none,
            some st⟩ : BlockRequest)] = [] := rfl
      rw [h1, List.append_nil]
      exact hfst
  · -- part 2: stat parameters iff short chunk
    intro r hr d hd
    unfold copy_file_requests at hr
    by_cases hls : (uploadBlocks hash B C st (chunksOf B data) 0 false).2.2
    · rw [if_pos hls] at hr
      exact (hbody r hr).2 d hd
    · rw [if_neg hls] at hr
      rcases List.mem_append.mp hr with h1 | h1
      · exact (hbody r h1).2 d hd
      · simp only [List.mem_singleton] at h1
        subst h1
        simp at hd
  · -- part 3: size a multiple of B forces exactly one bodyless commit
    intro hdvd
    have hfull := chunksOf_full B hB data hdvd
    have hnotshort : ∀ d ∈ chunksOf B data, ¬ d.length < B := by
      intro d hd
      rw [hfull d hd]
      omega
    have hls := uploadBlocks_lastsent hash B C st (chunksOf B data) 0 false hnotshort
    have hidx := uploadBlocks_idx hash B C st (chunksOf B data) 0 false
    have hlen := chunksOf_length_of_dvd B hB data hdvd
    unfold copy_file_requests
    rw [if_neg (by simp [hls])]
    rw [hidx, hlen, Nat.zero_add]
    constructor
    · rw [List.filter_append]
      have h2 : List.filter (fun r => r.body.isNone)
          (uploadBlocks hash B C st (chunksOf B data) 0 false).1 = [] := by
        rw [List.filter_eq_nil_iff]
        intro r hr
        have hso := (hbody r hr).1
        simp only [Option.isNone_iff_eq_none]
        intro hcon
        rw [hcon] at hso
        cases hso
      rw [h2]
      rfl
    · exact List.getLast?_concat _

/-- Witness for C1 at a concrete input: block size 2, one remote
checksum, a three-byte local file. -/
theorem copy_file_requests_correct_witness :
    0 < 2 ∧ C1Prop (fun _ => "aa") 2 ["ab"] [5, 6, 7] ⟨3, 1, 2⟩ :=
  ⟨by decide, copy_file_requests_correct (fun _ => "aa") 2 ["ab"] [5, 6, 7] ⟨3, 1, 2⟩ (by decide)⟩

/-! ## C3 theorem -/

/-- C3: `file_sums` returns status 200, the configured block size, and
`⌈size/Blocksize⌉` hex digests, one per block of the destination file;
for an absent or empty file the list is empty. -/
theorem file_sums_correct (B : Nat) (hash : List Nat → String)
    (file : Option (List Nat)) (hB : 0 < B) : C3Prop B hash file := by
  unfold C3Prop file_sums
  refine ⟨rfl, rfl, ?_, ?_⟩
  · cases file with
    | none => simp [ceilDivNat, Nat.div_eq_of_lt (by omega : B - 1 < B)]
    | some data =>
      simp only [Option.getD_some, List.length_map]
      exact chunksOf_length B hB data
  · rintro (h | h) <;> subst h
    · rfl
    · simp only
      unfold chunksOf
      rw [if_neg (by omega)]
      rfl

/-- Witness for C3 at a concrete input: block size 2 over a five-byte
file (⌈5/2⌉ = 3 checksums). -/
theorem file_sums_correct_witness :
    0 < 2 ∧ C3Prop 2 (fun _ => "h") (some [1, 2, 3, 4, 5]) :=
  ⟨by decide, file_sums_correct 2 (fun _ => "h") (some [1, 2, 3, 4, 5]) (by decide)⟩

/-! ## Lemmas about seek-and-write -/

theorem writeAt_length (c : List Nat) (o : Nat) (d : List Nat) :
    (writeAt c o d).length = max (o + d.length) c.length := by
  simp [writeAt]
  omega

theorem writeAt_getElem_in (c : List Nat) (o : Nat) (d : List Nat) (j : Nat)
    (hj : j < d.length) : (writeAt c o d)[o + j]? = d[j]? := by
  unfold writeAt
  have hpre : ((c ++ List.replicate (o - c.length) 0).take o).length = o := by
    simp
    omega
  rw [List.getElem?_append_left (by simp [hpre]; omega)]
  rw [List.getElem?_append_right (by omega : ((c ++ List.replicate (o - c.length) 0).take o).length ≤ o + j)]
  rw [hpre]
  congr 1
  omega

theorem writeAt_getElem_out (l : List Nat) (o : Nat) (d : List Nat) (j : Nat)
    (hout : j < o ∨ o + d.length ≤ j) (hj : j < l.length) :
    (writeAt l o d)[j]? = l[j]? := by
  unfold writeAt
  have hpre : ((l ++ List.replicate (o - l.length) 0).take o).length = o := by
    simp
    omega
  rcases hout with hlt | hge
  · rw [List.getElem?_append_left (by simp [hpre]; omega)]
    rw [List.getElem?_append_left (by omega : j < ((l ++ List.replicate (o - l.length) 0).take o).length)]
    rw [List.getElem?_take_of_lt hlt]
    exact List.getElem?_append_left hj
  · rw [List.getElem?_append_right (by simp [hpre]; omega)]
    have hlen2 : (((l ++ List.replicate (o - l.length) 0).take o) ++ d).length = o + d.length := by
      simp [hpre]
    rw [hlen2, List.getElem?_drop]
    congr 1
    omega

theorem truncateTo_length (l : List Nat) (n : Nat) :
    (truncateTo l n).length = n := by
  simp [truncateTo]
  omega

theorem truncateTo_getElem (l : List Nat) (n j : Nat) (hn : j < n)
    (hl : j < l.length) : (truncateTo l n)[j]? = l[j]? := by
  unfold truncateTo
  rw [List.getElem?_append_left (by simp; omega)]
  exact List.getElem?_take_of_lt hn

/-- `copy_block` on the success path, written out: the content is the
written (and optionally truncated) bytes, the times are the request's
when both are present and the write time otherwise. -/
theorem copy_block_false_eq (file : Option FileState) (offset : Nat)
    (data : List Nat) (filesize atime mtime : Option Nat) (wtime : Nat × Nat) :
    copy_block false file offset data filesize atime mtime wtime =
      (some ⟨(match filesize with
            | some n => truncateTo (writeAt ((file.map FileState.content).getD []) offset data) n
            | none => writeAt ((file.map FileState.content).getD []) offset data),
          (match atime, mtime with
            | some a, some _ => a
            | _, _ => wtime.1),
          (match atime, mtime with
            | some _, some m => m
            | _, _ => wtime.2)⟩, 200) := by
  unfold copy_block
  match atime, mtime with
  | some _, some _ => rfl
  | some _, none => rfl
  | none, _ => rfl

/-! ## C2 theorem -/

/-- C2: `copy_block` writes the body at the given offset into the
destination file (creating it when absent), truncates to exactly
`filesize` bytes when that parameter is present, applies the access and
modification times iff both `atime_ns` and `mtime_ns` are present, and
returns 200 on success and 403 on an I/O error. -/
theorem copy_block_correct (file : Option FileState) (offset : Nat)
    (data : List Nat) (filesize atime mtime : Option Nat) (wtime : Nat × Nat) :
    C2Prop file offset data filesize atime mtime wtime := by
  unfold C2Prop
  rw [copy_block_false_eq]
  refine ⟨rfl, ⟨_, rfl, ?_, ?_, ?_, ?_, ?_⟩, rfl⟩
  · rintro rfl j hj
    exact writeAt_getElem_in _ offset data j hj
  · rintro n rfl
    refine ⟨truncateTo_length _ _, ?_⟩
    intro j hj hjn
    rw [truncateTo_getElem _ _ _ hjn (by rw [writeAt_length]; omega)]
    exact writeAt_getElem_in _ offset data j hj
  · rintro rfl
    exact writeAt_length _ offset data
  · rintro a m rfl rfl
    exact ⟨rfl, rfl⟩
  · rintro (rfl | rfl)
    · exact ⟨rfl, rfl⟩
    · rcases atime with _ | a <;> exact ⟨rfl, rfl⟩

/-- Witness for C2 at a concrete input: write `[9, 9]` at offset 1 of a
three-byte file and truncate to 2 bytes. -/
theorem copy_block_correct_witness :
    C2Prop (some ⟨[1, 2, 3], 0, 0⟩) 1 [9, 9] (some 2) (some 7) (some 8) (5, 6) :=
  copy_block_correct (some ⟨[1, 2, 3], 0, 0⟩) 1 [9, 9] (some 2) (some 7) (some 8) (5, 6)

/-! ## C10 theorem -/

/-- C10: a successful `copy_block` modifies only the byte range
`[offset, offset+len(data))` of the addressed file (plus any bytes the
truncation removes); every byte outside that range that survives, and
every other file of the destination tree, is unchanged. -/
theorem copy_block_frame (fs : FileMap) (p : String) (offset : Nat)
    (data : List Nat) (filesize atime mtime : Option Nat) (wtime : Nat × Nat) :
    C10Prop fs p offset data filesize atime mtime wtime := by
  unfold C10Prop
  constructor
  · intro q hq
    unfold copy_block_fs
    simp only [if_neg hq]
  · intro f hf
    unfold copy_block_fs
    simp only
    rw [if_pos trivial, hf, copy_block_false_eq]
    refine ⟨_, rfl, ?_⟩
    intro j hout hjf hjlen
    simp only [Option.map_some, Option.getD_some] at hjlen ⊢
    rcases filesize with _ | n
    · exact writeAt_getElem_out f.content offset data j hout hjf
    · replace hjlen : j < (truncateTo (writeAt f.content offset data) n).length := hjlen
      rw [truncateTo_length] at hjlen
      show (truncateTo (writeAt f.content offset data) n)[j]? = f.content[j]?
      rw [truncateTo_getElem _ _ _ hjlen (by rw [writeAt_length]; omega)]
      exact writeAt_getElem_out f.content offset data j hout hjf

/-- Witness for C10 at a concrete input: a two-file tree, writing one
byte at offset 0 of one file. -/
theorem copy_block_frame_witness :
    C10Prop (fun q => if q = "a" then some ⟨[1, 2], 0, 0⟩
      else if q = "b" then some ⟨[3], 0, 0⟩ else none)
      "a" 0 [9] none none none (4, 4) :=
  copy_block_frame (fun q => if q = "a" then some ⟨[1, 2], 0, 0⟩
      else if q = "b" then some ⟨[3], 0, 0⟩ else none)
      "a" 0 [9] none none none (4, 4)

/-! ## C4 theorem -/

/-- C4: the update-buffer entry state machine.  From Absent a modify
uploads immediately and creates a Fresh entry stamped `now`; from
Fresh or Dirty a modify sets `PendingUpdate` without uploading; a due
poller tick uploads a Dirty entry (it becomes Fresh) and removes a
Fresh entry; a delete removes the entry without uploading; an in-root
rename moves the entry unchanged to the new key without uploading. -/
theorem update_buffer_transitions (d : UpdateDict) (p src dest : String)
    (e : Entry) (now now2 U : Nat) : C4Prop d p src dest e now now2 U := by
  unfold C4Prop
  refine ⟨?_, ?_, ?_, ?_, ?_, ?_⟩
  · intro h
    unfold on_modified
    rw [h]
    exact ⟨rfl, by simp⟩
  · intro e' h
    unfold on_modified
    rw [h]
    exact ⟨rfl, by simp⟩
  · intro hage hpend
    unfold tick_entry
    rw [if_pos hage, hpend]
    rfl
  · intro hage hpend
    unfold tick_entry
    rw [if_pos hage, hpend]
    rfl
  · exact ⟨by simp [on_deleted], rfl⟩
  · intro hne h
    have hsome : (d src).isSome = true := by rw [h]; rfl
    refine ⟨?_, ?_, ?_⟩ <;>
      simp [on_moved, hsome, hne, Ne.symm hne, h]

/-- Witness for C4 at a concrete input: a dictionary holding one Dirty
entry. -/
theorem update_buffer_transitions_witness :
    C4Prop (fun q => if q = "s" then some ⟨3, true⟩ else none)
      "p" "s" "t" ⟨3, true⟩ 70 71 60 :=
  update_buffer_transitions (fun q => if q = "s" then some ⟨3, true⟩ else none)
    "p" "s" "t" ⟨3, true⟩ 70 71 60

/-! ## C6 theorem -/

/-- C6: the client `check_file` returns `true` iff the server reports a
regular file whose `st_size` and `st_mtime` both equal the local stat's
(content is not compared); 410 yields `false`; any other status
raises. -/
theorem check_file_correct (remote : Option StatRecord) (localstat : StatRecord) :
    C6Prop remote localstat := by
  unfold C6Prop
  refine ⟨?_, ?_, ?_, rfl⟩
  · cases remote with
    | none => simp [check_file_server, check_file_client]
    | some r => simp [check_file_server, check_file_client]
  · intro h
    subst h
    rfl
  · intro c hc
    simp [check_file_client, hc]

/-- Witness for C6 at a concrete input: matching size and mtime. -/
theorem check_file_correct_witness :
    C6Prop (some ⟨10, 2⟩) ⟨10, 2⟩ :=
  check_file_correct (some ⟨10, 2⟩) ⟨10, 2⟩

/-! ## C7 theorem -/

/-- C7: `createdir` on an existing directory, `deleteobject` on an
absent path, and `renameobject` whose source is already absent
(`FileNotFoundError`) all return 200 and leave the destination tree
unchanged. -/
theorem idempotent_ops (fs : FS) (pdir pabs oldp newp : List String) :
    C7Prop fs pdir pabs oldp newp := by
  unfold C7Prop
  refine ⟨?_, ?_, ?_⟩
  · intro h
    unfold create_dir
    rw [if_pos h]
  · intro h
    unfold delete_object
    rw [h]
  · intro h
    unfold rename_object os_rename
    rw [h]

/-- Witness for C7 at a concrete input: a tree with one directory. -/
theorem idempotent_ops_witness :
    C7Prop [(["d"], FSObj.dir)] ["d"] ["x"] ["y"] ["z"] :=
  idempotent_ops [(["d"], FSObj.dir)] ["d"] ["x"] ["y"] ["z"]

/-! ## C9: delete of a non-empty directory -/

/-- C9 counterexample: `deleteobject` on the non-empty directory `d`
(it contains `d/f`) does NOT return 200 — `os.rmdir` raises ENOTEMPTY,
which the handler catches and maps to 403; the tree is unchanged. -/
theorem delete_nonempty_counterexample :
    (delete_object fs9 ["d"]).2 ≠ 200 ∧ delete_object fs9 ["d"] = (fs9, 403) := by
  decide

/-- C9 amended: `deleteobject` on a non-empty destination directory
returns 403 (the `rmdir` error mapped by the handler) without removing
the directory or any of its contents. -/
theorem delete_object_nonempty (fs : FS) (p : List String)
    (hdir : lookupFS fs p = some FSObj.dir) (hne : dirNonEmpty fs p = true) :
    delete_object fs p = (fs, 403) := by
  unfold delete_object
  rw [hdir, if_pos hne]

/-- Witness for the amended C9, at the concrete non-empty directory. -/
theorem delete_object_nonempty_witness :
    lookupFS fs9 ["d"] = some FSObj.dir ∧ dirNonEmpty fs9 ["d"] = true ∧
      delete_object fs9 ["d"] = (fs9, 403) :=
  ⟨by decide, by decide, delete_object_nonempty fs9 ["d"] (by decide) (by decide)⟩

/-! ## C8: path traversal -/

/-- C8 counterexample: with destination root `/home/srv/Storage`, the
request path `../../evil` resolves to `/home/evil`, outside the root;
`createdir` still serves it with 200 and creates the directory outside
the root — no rejection happens. -/
theorem path_escape_counterexample :
    ¬ (c8root <+: effective_path c8root ["..", "..", "evil"])
    ∧ (create_dir_handler c8fs c8root ["..", "..", "evil"]).2 = 200
    ∧ lookupFS (create_dir_handler c8fs c8root ["..", "..", "evil"]).1 ["home", "evil"] =
        some FSObj.dir := by
  decide

theorem foldl_normStep_keeps_acc (P : List String) :
    ∀ acc : List String, ¬ ".." ∈ P → acc <+: List.foldl normStep acc P := by
  induction P with
  | nil => intro acc _; exact List.prefix_rfl
  | cons s P ih =>
    intro acc hP
    have hs : s ≠ ".." := fun h => hP (by simp [h])
    have hP2 : ¬ ".." ∈ P := fun h => hP (by simp [h])
    simp only [List.foldl_cons]
    unfold normStep
    by_cases h0 : s = "" ∨ s = "."
    · rw [if_pos h0]
      exact ih acc hP2
    · rw [if_neg h0, if_neg hs]
      exact (List.prefix_append acc [s]).trans (ih (acc ++ [s]) hP2)

/-- C8 amended: the handlers operate on `normalise(join(root, P))` with
no traversal check at all (a `P` with `..` segments can escape the root
and is still served, see the counterexample); when `P` contains no `..`
segment and the root is itself normalised, the effective path does stay
under the destination root. -/
theorem effective_path_under_root (root P : List String)
    (hroot : normSegs root = root) (hP : ¬ ".." ∈ P) :
    root <+: effective_path root P := by
  unfold effective_path normSegs
  rw [List.foldl_append]
  have h1 : List.foldl normStep [] root = root := hroot
  rw [h1]
  exact foldl_normStep_keeps_acc P root hP

/-- Witness for the amended C8 at a concrete root and dot-dot-free
path. -/
theorem effective_path_under_root_witness :
    normSegs ["a"] = ["a"] ∧ ¬ ".." ∈ ["b", ".", "c"] ∧
      ["a"] <+: effective_path ["a"] ["b", ".", "c"] :=
  ⟨by decide, by decide,
    effective_path_under_root ["a"] ["b", ".", "c"] (by decide) (by decide)⟩

/-! ## C5: the upload rate limit -/

theorem runUploads_separated (U : Nat) :
    ∀ (evs : List WatchEvent) (s : Option Entry) (prev : Option Nat) (t0 : Nat),
      TimesLB t0 evs → EntryInv U s prev t0 →
      Separated U prev (runUploads U s evs) := by
  intro evs
  induction evs with
  | nil =>
    intro s prev t0 _ _
    exact trivial
  | cons ev evs ih =>
    intro s prev t0 hlb hinv
    obtain ⟨hge, hlb2⟩ := hlb
    cases ev with
    | modify t =>
      simp only [evTime] at hge hlb2
      cases s with
      | some e =>
        show Separated U prev (runUploads U (some ⟨e.LastUpdated, true⟩) evs)
        apply ih _ prev t hlb2
        cases prev with
        | none =>
          replace hinv : e.LastUpdated ≤ t0 := hinv
          show e.LastUpdated ≤ t
          omega
        | some u =>
          replace hinv : u ≤ e.LastUpdated ∧ e.LastUpdated ≤ t0 := hinv
          show u ≤ e.LastUpdated ∧ e.LastUpdated ≤ t
          omega
      | none =>
        show (∀ u, prev = some u → u + U ≤ t) ∧
          Separated U (some t) (runUploads U (some ⟨t, false⟩) evs)
        constructor
        · intro u hu
          subst hu
          replace hinv : u + U ≤ t0 := hinv
          omega
        · apply ih _ (some t) t hlb2
          show t ≤ t ∧ t ≤ t
          omega
    | tick t =>
      simp only [evTime] at hge hlb2
      cases s with
      | none =>
        show Separated U prev (runUploads U none evs)
        apply ih none prev t hlb2
        cases prev with
        | none => exact trivial
        | some u =>
          replace hinv : u + U ≤ t0 := hinv
          show u + U ≤ t
          omega
      | some e =>
        have hstep : stepEntry U (some e) (.tick t) = tick_entry e t t U := rfl
        by_cases hdue : U ≤ t - e.LastUpdated
        · cases hpend : e.PendingUpdate with
          | true =>
            have htick : tick_entry e t t U = (some ⟨t, false⟩, true) := by
              unfold tick_entry
              rw [if_pos hdue, hpend]
              rfl
            show Separated U prev
              ((if (stepEntry U (some e) (.tick t)).2 then [evTime (.tick t)] else []) ++
                runUploads U (stepEntry U (some e) (.tick t)).1 evs)
            rw [hstep, htick]
            show (∀ u, prev = some u → u + U ≤ t) ∧
              Separated U (some t) (runUploads U (some ⟨t, false⟩) evs)
            constructor
            · intro u hu
              subst hu
              replace hinv : u ≤ e.LastUpdated ∧ e.LastUpdated ≤ t0 := hinv
              omega
            · apply ih _ (some t) t hlb2
              show t ≤ t ∧ t ≤ t
              omega
          | false =>
            have htick : tick_entry e t t U = (none, false) := by
              unfold tick_entry
              rw [if_pos hdue, hpend]
              rfl
            show Separated U prev
              ((if (stepEntry U (some e) (.tick t)).2 then [evTime (.tick t)] else []) ++
                runUploads U (stepEntry U (some e) (.tick t)).1 evs)
            rw [hstep, htick]
            show Separated U prev (runUploads U none evs)
            apply ih none prev t hlb2
            cases prev with
            | none => exact trivial
            | some u =>
              replace hinv : u ≤ e.LastUpdated ∧ e.LastUpdated ≤ t0 := hinv
              show u + U ≤ t
              omega
        · have htick : tick_entry e t t U = (some e, false) := by
            unfold tick_entry
            rw [if_neg hdue]
          show Separated U prev
            ((if (stepEntry U (some e) (.tick t)).2 then [evTime (.tick t)] else []) ++
              runUploads U (stepEntry U (some e) (.tick t)).1 evs)
          rw [hstep, htick]
          show Separated U prev (runUploads U (some e) evs)
          apply ih _ prev t hlb2
          cases prev with
          | none =>
            replace hinv : e.LastUpdated ≤ t0 := hinv
            show e.LastUpdated ≤ t
            omega
          | some u =>
            replace hinv : u ≤ e.LastUpdated ∧ e.LastUpdated ≤ t0 := hinv
            show u ≤ e.LastUpdated ∧ e.LastUpdated ≤ t
            omega

theorem separated_pairwise (U : Nat) :
    ∀ (L : List Nat) (prev : Option Nat), Separated U prev L →
      L.Pairwise (fun a b => a + U ≤ b) ∧ (∀ u, prev = some u → ∀ x ∈ L, u + U ≤ x) := by
  intro L
  induction L with
  | nil =>
    intro prev _
    refine ⟨List.Pairwise.nil, ?_⟩
    intro u _ x hx
    cases hx
  | cons x xs ih =>
    intro prev hsep
    obtain ⟨hhead, hrest⟩ := hsep
    obtain ⟨hpw, hall⟩ := ih (some x) hrest
    refine ⟨List.Pairwise.cons (fun y hy => hall x rfl y hy) hpw, ?_⟩
    intro u hu y hy
    rcases List.mem_cons.mp hy with rfl | hy2
    · exact hhead u hu
    · have h1 := hhead u hu
      have h2 := hall x rfl y hy2
      omega

theorem pairwise_window_count (U : Nat) (hU : 0 < U) :
    ∀ (L : List Nat) (a T : Nat), L.Pairwise (fun x y => x + U ≤ y) →
      (∀ x ∈ L, a ≤ x ∧ x ≤ a + T) → L.length ≤ T / U + 1 := by
  intro L
  induction L with
  | nil =>
    intro a T _ _
    simp
  | cons x xs ih =>
    intro a T hpw hin
    obtain ⟨hx, hxs⟩ := List.pairwise_cons.mp hpw
    by_cases hTU : T < U
    · have hxe : xs = [] := by
        cases xs with
        | nil => rfl
        | cons y ys =>
          have h1 := hx y (by simp)
          have h2 := (hin x (by simp)).1
          have h3 := (hin y (by simp)).2
          omega
      subst hxe
      simp
    · push_neg at hTU
      have hsub : ∀ y ∈ xs, x + U ≤ y ∧ y ≤ (x + U) + (T - U) := by
        intro y hy
        have h1 := hx y hy
        have h2 := (hin y (List.mem_cons_of_mem x hy)).2
        have h3 := (hin x (List.mem_cons_self x xs)).1
        exact ⟨h1, by omega⟩
      have hrec := ih (x + U) (T - U) hxs hsub
      have h2 : T - U + U = T := by omega
      have hdiv : (T - U) / U + 1 = T / U := by
        conv_rhs => rw [← h2]
        rw [Nat.add_div_right _ hU]
      simp only [List.length_cons]
      omega

theorem div_le_ceilDiv (T U : Nat) (hU : 0 < U) : T / U ≤ ceilDivNat T U := by
  unfold ceilDivNat
  exact Nat.div_le_div_right (by omega)

/-- C5 (amended): over any modify/tick event trace for a single file
with nondecreasing times, the number of upload sessions (`copy_file`
invocations) issued inside any window of length `T` seconds is at most
`⌈T/updatemax⌉ + 1`. -/
theorem upload_sessions_window_bound (U T a : Nat) (evs : List WatchEvent)
    (hU : 0 < U) (hsorted : TimesLB 0 evs) : C5Prop U T a evs := by
  unfold C5Prop uploadsInWindow
  have hsep := runUploads_separated U evs none none 0 hsorted True.intro
  have hpw := (separated_pairwise U (runUploads U none evs) none hsep).1
  have hpwf : ((runUploads U none evs).filter
      (fun t => decide (a ≤ t) && decide (t ≤ a + T))).Pairwise
        (fun x y => x + U ≤ y) :=
    hpw.filter _
  have hin : ∀ x ∈ (runUploads U none evs).filter
      (fun t => decide (a ≤ t) && decide (t ≤ a + T)), a ≤ x ∧ x ≤ a + T := by
    intro x hx
    rw [List.mem_filter] at hx
    simp only [Bool.and_eq_true, decide_eq_true_eq] at hx
    exact hx.2
  have hcount := pairwise_window_count U hU _ a T hpwf hin
  have hceil := div_le_ceilDiv T U hU
  omega

/-- Witness for the amended C5: a four-event trace with `updatemax` 60
(first modify uploads at 0, a due tick at 70 flushes the pending edit
from 45) inside the window `[0, 100]`. -/
theorem upload_sessions_window_bound_witness :
    0 < 60 ∧
    TimesLB 0 [WatchEvent.modify 0, WatchEvent.tick 30,
      WatchEvent.modify 45, WatchEvent.tick 70] ∧
    C5Prop 60 100 0 [WatchEvent.modify 0, WatchEvent.tick 30,
      WatchEvent.modify 45, WatchEvent.tick 70] :=
  ⟨by omega,
   ⟨by decide, by decide, by decide, by decide, trivial⟩,
   upload_sessions_window_bound 60 100 0
     [WatchEvent.modify 0, WatchEvent.tick 30,
      WatchEvent.modify 45, WatchEvent.tick 70]
     (by omega)
     ⟨by decide, by decide, by decide, by decide, trivial⟩⟩

/-- C5 counterexample: the claim counts `copyblock` requests, but one
upload session of a multi-block file issues several.  With
`updatemax = 10`, a 3-byte file, server block size 1 and an empty remote
checksum list, modifying the file at every time unit (rate ≫
1/updatemax) triggers one session in the window `[0, 9]`, which issues
3 data blocks plus the terminal commit = 4 requests, exceeding
`⌈9/10⌉ + 1 = 2`. -/
theorem request_count_counterexample :
    ¬ (copyblockRequestsInWindow 10 (fun _ => "") ⟨1, []⟩ [0, 0, 0] ⟨3, 0, 0⟩
        [WatchEvent.modify 0, WatchEvent.modify 1, WatchEvent.modify 2,
         WatchEvent.modify 3, WatchEvent.modify 4, WatchEvent.modify 5,
         WatchEvent.modify 6, WatchEvent.modify 7, WatchEvent.modify 8,
         WatchEvent.modify 9] 0 9 ≤ ceilDivNat 9 10 + 1) := by
  decide
